import Mathlib

/-!
# Verification of the MENUFY tenant store (`src/contexts/RestaurantContext.tsx`)

A shallow embedding of the restaurant state container and its mutation
operations, together with proofs about the properties its specification
states.

The store calls the JavaScript runtime primitives `JSON.stringify` and
`JSON.parse`.  These are modelled executably below by `jstringify` and
`jparse` over an explicit JSON value type.  Model restrictions (documented
where they occur): JSON numbers are modelled as integers, and strings are
sequences of unicode scalar values (`List Char`).
-/

namespace Menufy

/-! ## Character helpers (models of the JS runtime's character classes) -/

/-- JSON insignificant whitespace: space, tab, line feed, carriage return. -/
def isWsC (c : Char) : Bool := c.toNat = 32 || c.toNat = 9 || c.toNat = 10 || c.toNat = 13

/-- ASCII decimal digit. -/
def isDigitC (c : Char) : Bool := 48 ≤ c.toNat && c.toNat ≤ 57

/-- The character for a decimal digit value. -/
def digitChar (d : Nat) : Char := Char.ofNat (48 + d)

/-- Lower-case hexadecimal digit characters, as `JSON.stringify` emits them. -/
def hexDig (d : Nat) : Char := "0123456789abcdef".data.getD d '0'

/-- Value of a hexadecimal digit character (upper or lower case). -/
def hexVal (c : Char) : Option Nat :=
  if 48 ≤ c.toNat && c.toNat ≤ 57 then some (c.toNat - 48)
  else if 97 ≤ c.toNat && c.toNat ≤ 102 then some (c.toNat - 87)
  else if 65 ≤ c.toNat && c.toNat ≤ 70 then some (c.toNat - 55)
  else none

/-- Model of JavaScript `String.prototype.trim` whitespace. -/
def isJsTrimWs (c : Char) : Bool :=
  c.toNat = 32 || (9 ≤ c.toNat && c.toNat ≤ 13) || c.toNat = 160 || c.toNat = 65279

/-- Model of JavaScript `String.prototype.trim`. -/
def jsTrim (s : String) : String :=
  String.mk (((s.data.dropWhile isJsTrimWs).reverse.dropWhile isJsTrimWs).reverse)

/-- Model of JavaScript `String.prototype.toUpperCase`, ASCII range. -/
def jsUpper (s : List Char) : List Char :=
  s.map (fun c => if 97 ≤ c.toNat && c.toNat ≤ 122 then Char.ofNat (c.toNat - 32) else c)

/-- Model of the tenant-id rewrite that replaces every hyphen with a space
(the global-regex `replace` call in the settings seeding). -/
def dashToSpace (s : List Char) : List Char :=
  s.map (fun c => if c = '-' then ' ' else c)

/-! ## JSON values

Mutual inductive so that structural recursion and induction stay simple.
Strings are `List Char`; numbers are modelled as integers. -/

mutual
inductive Json where
  | null : Json
  | bool : Bool → Json
  | num : Int → Json
  | str : List Char → Json
  | arr : JsonArr → Json
  | obj : JsonObj → Json
deriving DecidableEq
inductive JsonArr where
  | nil : JsonArr
  | cons : Json → JsonArr → JsonArr
deriving DecidableEq
inductive JsonObj where
  | nil : JsonObj
  | cons : List Char → Json → JsonObj → JsonObj
deriving DecidableEq
end

/-- Is this JSON value the literal `null`?  (Member access on `null` throws
in JavaScript; the store's `try` blocks observe exactly this.) -/
def Json.isNull : Json → Bool
  | .null => true
  | _ => false

/-- JavaScript truthiness of a parsed JSON value: `null`, `false`, `0` and
the empty string are falsy; every other value (arrays and objects included,
empty or not) is truthy. -/
def truthy : Json → Bool
  | .null => false
  | .bool b => b
  | .num n => n != 0
  | .str s => !s.isEmpty
  | .arr _ => true
  | .obj _ => true

/-- Last-wins member lookup: `JSON.parse` builds a JavaScript object in
which a later duplicate key overwrites an earlier one. -/
def objGet : JsonObj → List Char → Option Json
  | .nil, _ => none
  | .cons k v tl, key =>
    match objGet tl key with
    | some r => some r
    | none => if k = key then some v else none

/-- Member access `data.key` on an arbitrary JSON value: only objects have
members; every other non-null value yields `undefined` (here `none`). -/
def getField : Json → List Char → Option Json
  | .obj kvs, key => objGet kvs key
  | _, _ => none

/-- Model of the object spread `{ ...o, key: v }`: overwrite in place if the
key exists, else append. -/
def objSet : JsonObj → List Char → Json → JsonObj
  | .nil, key, v => .cons key v .nil
  | .cons k w tl, key, v =>
    if k = key then .cons k v tl else .cons k w (objSet tl key v)

/-! ## `JSON.stringify` -/

/-- Decimal digits of a natural number, most significant first; the
recursion budget keeps the definition kernel-computable. -/
def natDigsAux : Nat → Nat → List Char
  | 0, _ => []
  | fuel + 1, n =>
    if n < 10 then [digitChar n]
    else natDigsAux fuel (n / 10) ++ [digitChar (n % 10)]

/-- Decimal digits of a natural number, most significant first. -/
def natDigs (n : Nat) : List Char := natDigsAux (n + 1) n

/-- Decimal representation of an integer. -/
def strInt (n : Int) : List Char :=
  if n < 0 then '-' :: natDigs n.natAbs else natDigs n.natAbs

/-- How `JSON.stringify` escapes one string character: quote and backslash
escaped, the named control escapes, other control characters as
`\u00XX`, everything else verbatim. -/
def escChar (c : Char) : List Char :=
  if c = '"' then ['\\', '"']
  else if c = '\\' then ['\\', '\\']
  else if c.toNat = 10 then ['\\', 'n']
  else if c.toNat = 9 then ['\\', 't']
  else if c.toNat = 13 then ['\\', 'r']
  else if c.toNat = 8 then ['\\', 'b']
  else if c.toNat = 12 then ['\\', 'f']
  else if c.toNat < 32 then ['\\', 'u', '0', '0', hexDig (c.toNat / 16), hexDig (c.toNat % 16)]
  else [c]

/-- Escape a whole string body. -/
def escStr : List Char → List Char
  | [] => []
  | c :: s => escChar c ++ escStr s

/-- A JSON string literal: quoted, escaped body. -/
def strString (s : List Char) : List Char := '"' :: escStr s ++ ['"']

mutual
/-- `JSON.stringify` (no indentation), over the JSON model. -/
def strJ : Json → List Char
  | .null => "null".data
  | .bool true => "true".data
  | .bool false => "false".data
  | .num n => strInt n
  | .str s => strString s
  | .arr .nil => ['[', ']']
  | .arr (.cons v tl) => '[' :: strItems (.cons v tl) ++ [']']
  | .obj .nil => ['{', '}']
  | .obj (.cons k v tl) => '{' :: strMembers (.cons k v tl) ++ ['}']
/-- Comma-separated array elements. -/
def strItems : JsonArr → List Char
  | .nil => []
  | .cons v .nil => strJ v
  | .cons v (.cons w tl) => strJ v ++ ',' :: strItems (.cons w tl)
/-- Comma-separated object members. -/
def strMembers : JsonObj → List Char
  | .nil => []
  | .cons k v .nil => strString k ++ ':' :: strJ v
  | .cons k v (.cons k2 v2 tl) => strString k ++ ':' :: strJ v ++ ',' :: strMembers (.cons k2 v2 tl)
end

/-- String form of `JSON.stringify`. -/
def jstringify (j : Json) : String := String.mk (strJ j)

/-- What follows the first element in a serialized array: nothing, or a
comma and the remaining elements. -/
def strItemsTail : JsonArr → List Char
  | .nil => []
  | .cons v tl => ',' :: strItems (.cons v tl)

/-- What follows the first member in a serialized object: nothing, or a
comma and the remaining members. -/
def strMembersTail : JsonObj → List Char
  | .nil => []
  | .cons k v tl => ',' :: strMembers (.cons k v tl)

/-! ## `JSON.parse`

A recursive-descent parser with an explicit recursion budget.  Every
parsing function consumes a prefix of the input and returns the remaining
suffix. -/

/-- Decode a single-character escape. -/
def escUnmap (e : Char) : Option Char :=
  if e = '"' then some '"'
  else if e = '\\' then some '\\'
  else if e = '/' then some '/'
  else if e = 'n' then some (Char.ofNat 10)
  else if e = 't' then some (Char.ofNat 9)
  else if e = 'r' then some (Char.ofNat 13)
  else if e = 'b' then some (Char.ofNat 8)
  else if e = 'f' then some (Char.ofNat 12)
  else none

/-- Skip insignificant whitespace. -/
def skipWs : List Char → List Char
  | [] => []
  | c :: r => if isWsC c then skipWs r else c :: r

/-- Consume a maximal run of decimal digits, accumulating their value. -/
def parseNatAux (acc : Nat) : List Char → Nat × List Char
  | [] => (acc, [])
  | c :: r => if isDigitC c then parseNatAux (10 * acc + (c.toNat - 48)) r else (acc, c :: r)

mutual
/-- Parse one JSON value from the front of the input. -/
def parseVal : Nat → List Char → Option (Json × List Char)
  | 0, _ => none
  | fuel + 1, input =>
    match skipWs input with
    | [] => none
    | c :: r =>
      if c = 'n' then
        match r with
        | 'u' :: 'l' :: 'l' :: r2 => some (.null, r2)
        | _ => none
      else if c = 't' then
        match r with
        | 'r' :: 'u' :: 'e' :: r2 => some (.bool true, r2)
        | _ => none
      else if c = 'f' then
        match r with
        | 'a' :: 'l' :: 's' :: 'e' :: r2 => some (.bool false, r2)
        | _ => none
      else if c = '"' then
        (parseStrBody fuel r).map (fun p => (.str p.1, p.2))
      else if c = '-' then
        match r with
        | d :: r2 =>
          if isDigitC d then
            let p := parseNatAux (d.toNat - 48) r2
            some (.num (-(p.1 : Int)), p.2)
          else none
        | [] => none
      else if c = '[' then
        let r2 := skipWs r
        match r2 with
        | x :: r3 =>
          if x = ']' then some (.arr .nil, r3)
          else (parseItems fuel (x :: r3)).map (fun p => (.arr p.1, p.2))
        | [] => none
      else if c = '{' then
        let r2 := skipWs r
        match r2 with
        | x :: r3 =>
          if x = '}' then some (.obj .nil, r3)
          else (parseMembers fuel (x :: r3)).map (fun p => (.obj p.1, p.2))
        | [] => none
      else if isDigitC c then
        let p := parseNatAux (c.toNat - 48) r
        some (.num (p.1 : Int), p.2)
      else none
/-- Parse the elements of a non-empty array, up to and including `]`. -/
def parseItems : Nat → List Char → Option (JsonArr × List Char)
  | 0, _ => none
  | fuel + 1, input =>
    match parseVal fuel input with
    | none => none
    | some (v, r) =>
      match skipWs r with
      | x :: r2 =>
        if x = ',' then
          match parseItems fuel r2 with
          | none => none
          | some (tl, r3) => some (.cons v tl, r3)
        else if x = ']' then some (.cons v .nil, r2)
        else none
      | [] => none
/-- Parse the members of a non-empty object, up to and including `}`. -/
def parseMembers : Nat → List Char → Option (JsonObj × List Char)
  | 0, _ => none
  | fuel + 1, input =>
    match skipWs input with
    | x :: r0 =>
      if x = '"' then
        match parseStrBody fuel r0 with
        | none => none
        | some (k, r1) =>
          match skipWs r1 with
          | y :: r2 =>
            if y = ':' then
              match parseVal fuel r2 with
              | none => none
              | some (v, r3) =>
                match skipWs r3 with
                | z :: r4 =>
                  if z = ',' then
                    match parseMembers fuel r4 with
                    | none => none
                    | some (tl, r5) => some (.cons k v tl, r5)
                  else if z = '}' then some (.cons k v .nil, r4)
                  else none
                | [] => none
            else none
          | [] => none
      else none
    | [] => none
/-- Parse a string body after the opening quote, up to and including the
closing quote, decoding escapes. -/
def parseStrBody : Nat → List Char → Option (List Char × List Char)
  | 0, _ => none
  | fuel + 1, input =>
    match input with
    | [] => none
    | c :: r =>
      if c = '"' then some ([], r)
      else if c = '\\' then
        match r with
        | [] => none
        | e :: r2 =>
          if e = 'u' then
            match r2 with
            | h1 :: h2 :: h3 :: h4 :: r3 =>
              match hexVal h1, hexVal h2, hexVal h3, hexVal h4 with
              | some a, some b, some c2, some d2 =>
                let code := ((a * 16 + b) * 16 + c2) * 16 + d2
                if Nat.isValidChar code then
                  (parseStrBody fuel r3).map (fun p => (Char.ofNat code :: p.1, p.2))
                else none
              | _, _, _, _ => none
            | _ => none
          else
            match escUnmap e with
            | some ch => (parseStrBody fuel r2).map (fun p => (ch :: p.1, p.2))
            | none => none
      else if c.toNat < 32 then none
      else (parseStrBody fuel r).map (fun p => (c :: p.1, p.2))
end

/-- `JSON.parse`: parse one value, allow trailing whitespace, require the
whole input to be consumed; `none` models a thrown `SyntaxError`. -/
def jparse (s : String) : Option Json :=
  match parseVal (s.data.length + 1) s.data with
  | some (j, r) => if skipWs r = [] then some j else none
  | none => none

/-- Does the input start with a decimal digit?  (A digit directly after a
serialized value would glue onto a preceding number literal; no JSON
serialization puts one there.) -/
def digitHeadF : List Char → Bool
  | [] => false
  | c :: _ => isDigitC c

mutual
/-- Recursion budget needed to parse a serialized value: an upper bound on
the number of fueled parser calls. -/
def sizeJ : Json → Nat
  | .arr xs => sizeA xs + 1
  | .obj kvs => sizeO kvs + 1
  | .str s => s.length + 2
  | .null => 1
  | .bool _ => 1
  | .num _ => 1
/-- Budget for the elements of an array. -/
def sizeA : JsonArr → Nat
  | .nil => 0
  | .cons v tl => 1 + sizeJ v + sizeA tl
/-- Budget for the members of an object. -/
def sizeO : JsonObj → Nat
  | .nil => 0
  | .cons k v tl => k.length + 2 + sizeJ v + sizeO tl
end

/-- Round-trip property of `parseVal` at a given budget: a serialized
value followed by any suffix that does not start with a digit parses back
to the value, leaving the suffix. -/
def RTVal (fuel : Nat) : Prop :=
  ∀ j rest, sizeJ j ≤ fuel → digitHeadF rest = false →
    parseVal fuel (strJ j ++ rest) = some (j, rest)

/-- Round-trip property of `parseItems`. -/
def RTItems (fuel : Nat) : Prop :=
  ∀ xs rest, xs ≠ JsonArr.nil → sizeA xs ≤ fuel →
    parseItems fuel (strItems xs ++ (']' :: rest)) = some (xs, rest)

/-- Round-trip property of `parseMembers`. -/
def RTMem (fuel : Nat) : Prop :=
  ∀ kvs rest, kvs ≠ JsonObj.nil → sizeO kvs ≤ fuel →
    parseMembers fuel (strMembers kvs ++ ('}' :: rest)) = some (kvs, rest)

/-- Round-trip property of `parseStrBody`. -/
def RTStr (fuel : Nat) : Prop :=
  ∀ s rest, s.length + 1 ≤ fuel →
    parseStrBody fuel (escStr s ++ ('"' :: rest)) = some (s, rest)

/-! ## Data model of the tenant store

The entity types live in `src/types.ts`, which is not part of the given
sources; their fields are reconstructed from the spec's data model section
and from how `RestaurantContext.tsx` uses them. -/

/-- Modelled from the spec: activity entry type tags CREATE, UPDATE,
DELETE, SYSTEM (the `type` field of `ActivityEntry` in the missing
`src/types.ts`). -/
inductive ActType where
  | CREATE | UPDATE | DELETE | SYSTEM
deriving DecidableEq

/-- Modelled from the spec: activity entity kinds MENU_ITEM, CATEGORY,
PROMOTION, SETTINGS (the `entity` field of `ActivityEntry` in the missing
`src/types.ts`). -/
inductive EntKind where
  | MENU_ITEM | CATEGORY | PROMOTION | SETTINGS
deriving DecidableEq

/-- Modelled from the spec: an activity-log entry has a generated id, a
type, an entity kind, a human-readable description, and a timestamp. -/
structure ActivityEntry where
  id : String
  type : ActType
  entity : EntKind
  description : String
  timestamp : Int
deriving DecidableEq

/-- An `ActivityEntry` as `logActivity` builds one; the random id and
`Date.now()` timestamp are passed in explicitly. -/
def mkEntry (eid : String) (ty : ActType) (ent : EntKind) (desc : String) (ets : Int) :
    ActivityEntry :=
  { id := eid, type := ty, entity := ent, description := desc, timestamp := ets }

/-- Modelled from the spec: a menu item has a stable id, a name, a category
name, a price and display attributes (the latter folded into `name` here;
no operation in the store inspects them). -/
structure MenuItem where
  id : String
  name : String
  category : String
  price : Int
deriving DecidableEq

/-- Modelled from the spec: a discount milestone is a threshold/percentage
pair. -/
structure Milestone where
  threshold : Int
  percentage : Int
deriving DecidableEq

/-- Modelled from the spec: restaurant settings carry branding (`name`)
and the packing-charge amount; further branding fields do not influence
any store operation. -/
structure Settings where
  name : String
  packingCharge : Int
deriving DecidableEq

/-- Modelled from the spec: order status is an enum with PENDING and
further fulfillment states (names of the latter are not in the sources). -/
inductive OrderStatus where
  | PENDING | READY | COMPLETED
deriving DecidableEq

/-- Modelled from the spec: one ordered line item. -/
structure OrderLine where
  itemId : String
  quantity : Int
deriving DecidableEq

/-- Modelled from the spec: an order with generated id, line items, status,
creation timestamp, takeaway flag, packing charge, and total. -/
structure Order where
  id : String
  items : List OrderLine
  status : OrderStatus
  timestamp : Int
  isTakeaway : Bool
  packingCharge : Int
  total : Int
deriving DecidableEq

/-- The caller-supplied part of a new order (`Omit<Order, 'id' | 'status'
| 'timestamp'>`). -/
structure NewOrder where
  items : List OrderLine
  isTakeaway : Bool
  packingCharge : Int
  total : Int
deriving DecidableEq

/-- The in-memory state of the tenant store: the collections held in the
provider's `useState` cells. -/
structure State where
  menuItems : List MenuItem
  categories : List String
  orders : List Order
  lastPlacedOrder : Option Order
  discountMilestones : List Milestone
  settings : Settings
  activityLog : List ActivityEntry
  isAdmin : Bool
deriving DecidableEq

/-! ## Mutation operations (translated from `RestaurantContext.tsx`) -/

/-- `logActivity`: prepend the new entry and keep the 100 most recent
(`[newEntry, ...prev].slice(0, 100)`). -/
def logActivity (e : ActivityEntry) (s : State) : State :=
  { s with activityLog := (e :: s.activityLog).take 100 }

/-- `login`: succeeds exactly on the fixed password. -/
def login (password : String) (s : State) : State × Bool :=
  if password = "admin123" then ({ s with isAdmin := true }, true) else (s, false)

/-- `logout`. -/
def logout (s : State) : State := { s with isAdmin := false }

/-- `addMenuItem`: append, then log CREATE/MENU_ITEM. -/
def addMenuItem (item : MenuItem) (eid : String) (ets : Int) (s : State) : State :=
  logActivity (mkEntry eid .CREATE .MENU_ITEM ("Added new dish: " ++ item.name) ets)
    { s with menuItems := s.menuItems ++ [item] }

/-- `updateMenuItem`: replace the item with matching id, then log
UPDATE/MENU_ITEM (logged whether or not an id matched). -/
def updateMenuItem (updatedItem : MenuItem) (eid : String) (ets : Int) (s : State) : State :=
  logActivity (mkEntry eid .UPDATE .MENU_ITEM ("Updated dish: " ++ updatedItem.name) ets)
    { s with menuItems :=
        s.menuItems.map (fun item => if item.id = updatedItem.id then updatedItem else item) }

/-- `deleteMenuItem`: log DELETE/MENU_ITEM only when an item with the id
exists, then remove it. -/
def deleteMenuItem (id : String) (eid : String) (ets : Int) (s : State) : State :=
  let s' :=
    match s.menuItems.find? (fun i => i.id == id) with
    | some itemToDelete =>
      logActivity (mkEntry eid .DELETE .MENU_ITEM ("Deleted dish: " ++ itemToDelete.name) ets) s
    | none => s
  { s' with menuItems := s.menuItems.filter (fun item => item.id != id) }

/-- `addCategory`: trim; empty or duplicate is a silent no-op; otherwise
log CREATE/CATEGORY and append. -/
def addCategory (name : String) (eid : String) (ets : Int) (s : State) : State :=
  let trimmed := jsTrim name
  if trimmed = "" then s
  else if s.categories.contains trimmed then s
  else
    logActivity (mkEntry eid .CREATE .CATEGORY ("Created category: " ++ trimmed) ets)
      { s with categories := s.categories ++ [trimmed] }

/-- `renameCategory`: trim the new name; no-op when empty or equal to the
old name; otherwise rename in the category list, cascade over menu items,
and log UPDATE/CATEGORY. -/
def renameCategory (oldName newName : String) (eid : String) (ets : Int) (s : State) : State :=
  let trimmedNew := jsTrim newName
  if trimmedNew = "" || trimmedNew = oldName then s
  else
    logActivity
      (mkEntry eid .UPDATE .CATEGORY
        ("Renamed category: " ++ oldName ++ " to " ++ trimmedNew) ets)
      { s with
        categories := s.categories.map (fun c => if c = oldName then trimmedNew else c),
        menuItems := s.menuItems.map (fun item =>
          if item.category = oldName then { item with category := trimmedNew } else item) }

/-- `removeCategory`: drop the category, cascade-delete its menu items,
log DELETE/CATEGORY unconditionally. -/
def removeCategory (name : String) (eid : String) (ets : Int) (s : State) : State :=
  logActivity (mkEntry eid .DELETE .CATEGORY ("Permanently deleted category: " ++ name) ets)
    { s with
      categories := s.categories.filter (fun c => c != name),
      menuItems := s.menuItems.filter (fun item => item.category != name) }

/-- The comparison the store's `sort((a, b) => a.threshold - b.threshold)`
induces: ascending by threshold. -/
def mileLE (a b : Milestone) : Prop := a.threshold ≤ b.threshold

instance : DecidableRel mileLE := fun a b => inferInstanceAs (Decidable (a.threshold ≤ b.threshold))

instance : IsTotal Milestone mileLE := ⟨fun a b => Int.le_total a.threshold b.threshold⟩

instance : IsTrans Milestone mileLE := ⟨fun _ _ _ h1 h2 => le_trans h1 h2⟩

/-- `updateDiscountMilestones`: store a copy sorted ascending by threshold
(JavaScript's sort is stable, so any stable ascending sort is the same
function), and log UPDATE/PROMOTION. -/
def updateDiscountMilestones (milestones : List Milestone) (eid : String) (ets : Int)
    (s : State) : State :=
  logActivity (mkEntry eid .UPDATE .PROMOTION "Updated automatic discount milestones" ets)
    { s with discountMilestones := milestones.insertionSort mileLE }

/-- `updateSettings`: full replacement, log UPDATE/SETTINGS. -/
def updateSettings (newSettings : Settings) (eid : String) (ets : Int) (s : State) : State :=
  logActivity (mkEntry eid .UPDATE .SETTINGS "Updated restaurant branding & settings" ets)
    { s with settings := newSettings }

/-- `placeOrder`: generate id and timestamp, status PENDING, prepend, and
record as last placed order; no activity log entry. -/
def placeOrder (newOrderData : NewOrder) (oid : String) (ts : Int) (s : State) : State :=
  let newOrder : Order :=
    { id := oid, items := newOrderData.items, status := .PENDING, timestamp := ts,
      isTakeaway := newOrderData.isTakeaway, packingCharge := newOrderData.packingCharge,
      total := newOrderData.total }
  { s with orders := newOrder :: s.orders, lastPlacedOrder := some newOrder }

/-- `updateOrderStatus`: replace the status on the matching order; no log. -/
def updateOrderStatus (orderId : String) (status : OrderStatus) (s : State) : State :=
  { s with orders := s.orders.map (fun order =>
      if order.id = orderId then { order with status := status } else order) }

/-- `toggleOrderTakeaway`: on the matching order, flip the flag, set the
packing charge from the *current* settings (or zero), and shift the total
by plus/minus the current settings' packing charge; no log. -/
def toggleOrderTakeaway (orderId : String) (s : State) : State :=
  { s with orders := s.orders.map (fun order =>
      if order.id = orderId then
        let nextTakeaway := !order.isTakeaway
        let packingDiff : Int :=
          if nextTakeaway then s.settings.packingCharge else -s.settings.packingCharge
        { order with
          isTakeaway := nextTakeaway,
          packingCharge := if nextTakeaway then s.settings.packingCharge else 0,
          total := order.total + packingDiff }
      else order) }

/-- `clearHistory`: empty the log, then log the SYSTEM/SETTINGS notice. -/
def clearHistory (eid : String) (ets : Int) (s : State) : State :=
  logActivity (mkEntry eid .SYSTEM .SETTINGS "Activity history was cleared" ets)
    { s with activityLog := [] }

/-! ## Operation sequences -/

/-- One call to any mutation operation of the store, with the generated ids
and timestamps made explicit. -/
inductive Op where
  | login (password : String)
  | logout
  | addMenuItem (item : MenuItem) (eid : String) (ets : Int)
  | updateMenuItem (item : MenuItem) (eid : String) (ets : Int)
  | deleteMenuItem (id : String) (eid : String) (ets : Int)
  | addCategory (name : String) (eid : String) (ets : Int)
  | renameCategory (oldName newName : String) (eid : String) (ets : Int)
  | removeCategory (name : String) (eid : String) (ets : Int)
  | updateDiscountMilestones (ms : List Milestone) (eid : String) (ets : Int)
  | updateSettings (ns : Settings) (eid : String) (ets : Int)
  | placeOrder (d : NewOrder) (oid : String) (ts : Int)
  | updateOrderStatus (oid : String) (st : OrderStatus)
  | toggleOrderTakeaway (oid : String)
  | clearHistory (eid : String) (ets : Int)

/-- Apply one operation to the store state. -/
def applyOp (s : State) : Op → State
  | .login pw => (login pw s).1
  | .logout => logout s
  | .addMenuItem it eid ets => addMenuItem it eid ets s
  | .updateMenuItem it eid ets => updateMenuItem it eid ets s
  | .deleteMenuItem i eid ets => deleteMenuItem i eid ets s
  | .addCategory n eid ets => addCategory n eid ets s
  | .renameCategory o n eid ets => renameCategory o n eid ets s
  | .removeCategory n eid ets => removeCategory n eid ets s
  | .updateDiscountMilestones ms eid ets => updateDiscountMilestones ms eid ets s
  | .updateSettings ns eid ets => updateSettings ns eid ets s
  | .placeOrder d oid ts => placeOrder d oid ts s
  | .updateOrderStatus oid st => updateOrderStatus oid st s
  | .toggleOrderTakeaway oid => toggleOrderTakeaway oid s
  | .clearHistory eid ets => clearHistory eid ets s

/-- Apply a sequence of operations in order. -/
def applyOps (s : State) : List Op → State
  | [] => s
  | op :: ops => applyOps (applyOp s op) ops

/-! ## Import and export of business data

`importBusinessData` stores whatever `JSON.parse` produced without any
shape validation, so in this model the four business collections are JSON
values (exactly what the dynamically-typed JavaScript state holds); the
orders list and activity log, which import never replaces, ride along. -/

/-- The store state as `exportBusinessData` / `importBusinessData` see it. -/
structure BizState where
  menuItems : Json
  categories : Json
  settings : Json
  discountMilestones : Json
  orders : Json
  activityLog : List ActivityEntry
deriving DecidableEq

/-- `exportBusinessData`: serialize `{menuItems, categories, settings,
discountMilestones}` (not orders, not the activity log) in that key
order. -/
def exportBusinessData (s : BizState) : String :=
  jstringify (Json.obj
    (.cons "menuItems".data s.menuItems
      (.cons "categories".data s.categories
        (.cons "settings".data s.settings
          (.cons "discountMilestones".data s.discountMilestones .nil)))))

/-- `importBusinessData`: parse; a parse failure is caught and reported as
`false` with the state untouched.  On a successful parse, member access
`data.menuItems` on the JavaScript value `null` throws, which the same
`catch` turns into `false`; otherwise each of the four fields present and
truthy replaces its collection wholesale, a SYSTEM/SETTINGS entry is
logged, and the call returns `true`. -/
def importBusinessData (jsonStr : String) (eid : String) (ets : Int) (s : BizState) :
    BizState × Bool :=
  match jparse jsonStr with
  | none => (s, false)
  | some data =>
    if data.isNull then (s, false)
    else
      let s1 := match getField data "menuItems".data with
        | some v => if truthy v then { s with menuItems := v } else s
        | none => s
      let s2 := match getField data "categories".data with
        | some v => if truthy v then { s1 with categories := v } else s1
        | none => s1
      let s3 := match getField data "settings".data with
        | some v => if truthy v then { s2 with settings := v } else s2
        | none => s2
      let s4 := match getField data "discountMilestones".data with
        | some v => if truthy v then { s3 with discountMilestones := v } else s3
        | none => s3
      let entry := mkEntry eid .SYSTEM .SETTINGS "Imported external business configuration" ets
      ({ s4 with activityLog := (entry :: s4.activityLog).take 100 }, true)

/-! ## Store initialization (the load effect)

The load effect reads six persistence keys, parses what it finds, and
seeds defaults otherwise; any `JSON.parse` throw lands in the `catch`
block, which falls back to the default menu and categories.  The built-in
seed data comes from the missing `src/constants.ts`, so it is a parameter
here. -/

/-- Modelled from the spec: the built-in seed data (`MENU_ITEMS`, the
`Category` enumeration, `INITIAL_SETTINGS` with its default discount
schedule is hardcoded in the provider itself); contents are opaque. -/
structure LoadDefaults where
  menuSeed : Json
  catsSeed : Json
  initialSettings : JsonObj

/-- What the provider's six state cells hold after the load effect, plus
whether the corrupt-data recovery path (`catch` with its `console.error`)
ran. -/
structure LoadState where
  menuItems : Json
  categories : Json
  orders : Json
  discountMilestones : Json
  settings : Json
  activityLog : Json
  recovered : Bool
deriving DecidableEq

/-- The stored strings the effect reads, one per persistence key (`none`
models `localStorage.getItem` returning `null`). -/
structure LoadInput where
  savedMenu : Option String
  savedOrders : Option String
  savedCats : Option String
  savedDiscounts : Option String
  savedSettings : Option String
  savedLog : Option String

/-- A `{threshold, percentage}` milestone as a JSON object. -/
def mileJ (t p : Int) : Json :=
  Json.obj (.cons "threshold".data (Json.num t) (.cons "percentage".data (Json.num p) .nil))

/-- The provider's hardcoded three-tier default discount schedule. -/
def defaultDiscountsJ : Json :=
  Json.arr (.cons (mileJ 1000 10) (.cons (mileJ 1500 15) (.cons (mileJ 2000 20) .nil)))

/-- The state cells before the load effect runs. -/
def preLoadState (d : LoadDefaults) : LoadState :=
  { menuItems := Json.arr .nil, categories := Json.arr .nil, orders := Json.arr .nil,
    discountMilestones := defaultDiscountsJ, settings := Json.obj d.initialSettings,
    activityLog := Json.arr .nil, recovered := false }

/-- The display name seeded for a fresh tenant:
hyphens to spaces, then upper-cased. -/
def derivedName (tenantId : String) : List Char := jsUpper (dashToSpace tenantId.data)

/-- The `catch` block: fall back to the default menu and categories and
log the failure (observable here as `recovered`). -/
def recover (d : LoadDefaults) (s : LoadState) : LoadState :=
  { s with menuItems := d.menuSeed, categories := d.catsSeed, recovered := true }

/-- Load step 6: the activity log (`if (savedLog) ...`; a string is truthy
when non-empty). -/
def loadLog (d : LoadDefaults) (savedLog : Option String) (s : LoadState) : LoadState :=
  match savedLog with
  | some v =>
    if v = "" then s
    else match jparse v with
      | some j => { s with activityLog := j }
      | none => recover d s
  | none => s

/-- Load step 5: settings (`if (savedSettings) ...`); absent or falsy
seeds the defaults with the tenant-derived display name. -/
def loadSettings (d : LoadDefaults) (tenantId : String)
    (savedSettings savedLog : Option String) (s : LoadState) : LoadState :=
  let seeded : LoadState :=
    { s with settings :=
        Json.obj (objSet d.initialSettings "name".data (Json.str (derivedName tenantId))) }
  match savedSettings with
  | some v =>
    if v = "" then loadLog d savedLog seeded
    else match jparse v with
      | some j => loadLog d savedLog { s with settings := j }
      | none => recover d s
  | none => loadLog d savedLog seeded

/-- Load step 4: discount milestones (`if (savedDiscounts) ...`; absent
keeps the hardcoded three-tier default already in the cell). -/
def loadDiscounts (d : LoadDefaults) (tenantId : String)
    (savedDiscounts savedSettings savedLog : Option String) (s : LoadState) : LoadState :=
  match savedDiscounts with
  | some v =>
    if v = "" then loadSettings d tenantId savedSettings savedLog s
    else match jparse v with
      | some j => loadSettings d tenantId savedSettings savedLog { s with discountMilestones := j }
      | none => recover d s
  | none => loadSettings d tenantId savedSettings savedLog s

/-- Load step 3: orders (`if (savedOrders) ...`; absent leaves the empty
list). -/
def loadOrders (d : LoadDefaults) (tenantId : String)
    (savedOrders savedDiscounts savedSettings savedLog : Option String) (s : LoadState) :
    LoadState :=
  match savedOrders with
  | some v =>
    if v = "" then loadDiscounts d tenantId savedDiscounts savedSettings savedLog s
    else match jparse v with
      | some j => loadDiscounts d tenantId savedDiscounts savedSettings savedLog
          { s with orders := j }
      | none => recover d s
  | none => loadDiscounts d tenantId savedDiscounts savedSettings savedLog s

/-- Load step 2: categories (`savedCats !== null && savedCats !==
"undefined"` parses; otherwise the default category enumeration). -/
def loadCats (d : LoadDefaults) (tenantId : String)
    (savedCats savedOrders savedDiscounts savedSettings savedLog : Option String)
    (s : LoadState) : LoadState :=
  match savedCats with
  | some v =>
    if v = "undefined" then
      loadOrders d tenantId savedOrders savedDiscounts savedSettings savedLog
        { s with categories := d.catsSeed }
    else match jparse v with
      | some j => loadOrders d tenantId savedOrders savedDiscounts savedSettings savedLog
          { s with categories := j }
      | none => recover d s
  | none =>
    loadOrders d tenantId savedOrders savedDiscounts savedSettings savedLog
      { s with categories := d.catsSeed }

/-- Load step 1: the menu (`savedMenu !== null && savedMenu !==
"undefined"` parses; otherwise the built-in default menu). -/
def loadMenu (d : LoadDefaults) (tenantId : String)
    (savedMenu savedCats savedOrders savedDiscounts savedSettings savedLog : Option String)
    (s : LoadState) : LoadState :=
  match savedMenu with
  | some v =>
    if v = "undefined" then
      loadCats d tenantId savedCats savedOrders savedDiscounts savedSettings savedLog
        { s with menuItems := d.menuSeed }
    else match jparse v with
      | some j => loadCats d tenantId savedCats savedOrders savedDiscounts savedSettings savedLog
          { s with menuItems := j }
      | none => recover d s
  | none =>
    loadCats d tenantId savedCats savedOrders savedDiscounts savedSettings savedLog
      { s with menuItems := d.menuSeed }

/-- The whole load effect of `RestaurantProvider`. -/
def loadEffect (d : LoadDefaults) (tenantId : String) (inp : LoadInput) : LoadState :=
  loadMenu d tenantId inp.savedMenu inp.savedCats inp.savedOrders inp.savedDiscounts
    inp.savedSettings inp.savedLog (preLoadState d)

/-! ## Fixtures for concrete evaluations -/

/-- A dine-in order whose stored packing charge (5) is not the canonical
value for its takeaway flag. -/
def ordA : Order :=
  { id := "o1", items := [], status := .PENDING, timestamp := 0,
    isTakeaway := false, packingCharge := 5, total := 100 }

/-- A takeaway order whose stored packing charge (7) differs from the
current settings' packing charge (10). -/
def ordB : Order :=
  { id := "o1", items := [], status := .PENDING, timestamp := 0,
    isTakeaway := true, packingCharge := 7, total := 107 }

/-- Settings with a packing charge of 10. -/
def setTen : Settings := { name := "CAFE", packingCharge := 10 }

/-- A store state holding just `ordA`. -/
def stA : State :=
  { menuItems := [], categories := [], orders := [ordA], lastPlacedOrder := none,
    discountMilestones := [], settings := setTen, activityLog := [], isAdmin := false }

/-- A store state holding just `ordB`. -/
def stB : State :=
  { menuItems := [], categories := [], orders := [ordB], lastPlacedOrder := none,
    discountMilestones := [], settings := setTen, activityLog := [], isAdmin := false }

/-- A store state with two distinct categories and no items. -/
def stAB : State :=
  { menuItems := [], categories := ["A", "B"], orders := [], lastPlacedOrder := none,
    discountMilestones := [], settings := setTen, activityLog := [], isAdmin := false }

/-- Menu item A in category Drinks. -/
def itemA : MenuItem := { id := "A", name := "Cola", category := "Drinks", price := 3 }

/-- Menu item B in category Food. -/
def itemB : MenuItem := { id := "B", name := "Pasta", category := "Food", price := 9 }

/-- A store state with categories Drinks and Food and one item in each. -/
def stDF : State :=
  { menuItems := [itemA, itemB], categories := ["Drinks", "Food"], orders := [],
    lastPlacedOrder := none, discountMilestones := [], settings := setTen,
    activityLog := [], isAdmin := false }

/-- A default order value for `List.getD` reads (never selected under the
stated index bounds). -/
def dOrd : Order :=
  { id := "", items := [], status := .PENDING, timestamp := 0,
    isTakeaway := false, packingCharge := 0, total := 0 }

/-- A concrete business-data state. -/
def bizFix : BizState :=
  { menuItems := Json.arr .nil, categories := Json.arr (.cons (Json.str "Food".data) .nil),
    settings := Json.obj (.cons "packingCharge".data (Json.num 10) .nil),
    discountMilestones := defaultDiscountsJ, orders := Json.arr .nil, activityLog := [] }

/-- Concrete load defaults with recognizable sentinels. -/
def ldFix : LoadDefaults :=
  { menuSeed := Json.str "MENU".data, catsSeed := Json.str "CATS".data,
    initialSettings := .cons "packingCharge".data (Json.num 10) .nil }

/-- Load input with every key absent. -/
def inpNone : LoadInput :=
  { savedMenu := none, savedOrders := none, savedCats := none,
    savedDiscounts := none, savedSettings := none, savedLog := none }

/-- The value a collection holds after import offered it the parsed
member `getField j key`: replaced when present and truthy, kept otherwise. -/
def importedField (j : Json) (key : List Char) (old : Json) : Json :=
  match getField j key with
  | some v => if truthy v then v else old
  | none => old

/-! ## Helper lemmas -/

/-- `getD` after `map`, inside the mapped range. -/
theorem getD_map {α : Type} (f : α → α) (l : List α) (i : Nat) (d : α)
    (h : i < l.length) : (l.map f).getD i d = f (l.getD i d) := by
  simp [List.getD_eq_getElem?_getD, List.getElem?_map, List.getElem?_eq_getElem h]

/-! ## Character and digit lemmas for the JSON round trip -/

/-- Characters with equal scalar values are equal. -/
theorem charEq_of_toNat {a b : Char} (h : a.toNat = b.toNat) : a = b := by
  apply Char.eq_of_val_eq
  apply UInt32.eq_of_toBitVec_eq
  exact BitVec.eq_of_toNat_eq (by simpa [UInt32.toNat] using h)

/-- `Char.ofNat` below the surrogate range keeps its scalar value. -/
theorem toNat_ofNat {n : Nat} (h : n < 55296) : (Char.ofNat n).toNat = n := by
  unfold Char.ofNat
  rw [dif_pos (Or.inl h : Nat.isValidChar n)]
  rfl

/-- Scalar value of a digit character. -/
theorem toNat_digitChar (d : Nat) (h : d < 10) : (digitChar d).toNat = 48 + d :=
  toNat_ofNat (by omega)

/-- Digit characters are digits. -/
theorem isDigitC_digitChar (d : Nat) (h : d < 10) : isDigitC (digitChar d) = true := by
  simp [isDigitC, toNat_digitChar d h]
  omega

/-- Hex digits round-trip through `hexVal`. -/
theorem hexVal_hexDig (a : Nat) (h : a < 16) : hexVal (hexDig a) = some a := by
  interval_cases a <;> decide

/-- A decimal digit character excludes every other dispatch branch of
`parseVal`. -/
theorem isDigitC_props {c : Char} (h : isDigitC c = true) :
    (c ≠ 'n' ∧ c ≠ 't' ∧ c ≠ 'f') ∧ (c ≠ '"' ∧ c ≠ '-') ∧ (c ≠ '[' ∧ c ≠ '{')
      ∧ isWsC c = false ∧ c ≠ ']' ∧ c ≠ '}' := by
  have hne : ∀ x : Char, isDigitC x = false → c ≠ x := by
    intro x hx hcx
    rw [hcx] at h
    rw [h] at hx
    exact Bool.noConfusion hx
  have hws : isWsC c = false := by
    simp only [isDigitC, Bool.and_eq_true, decide_eq_true_eq] at h
    simp only [isWsC, Bool.or_eq_false_iff, decide_eq_false_iff_not]
    omega
  exact ⟨⟨hne 'n' (by decide), hne 't' (by decide), hne 'f' (by decide)⟩,
    ⟨hne '"' (by decide), hne '-' (by decide)⟩,
    ⟨hne '[' (by decide), hne '{' (by decide)⟩, hws,
    hne ']' (by decide), hne '}' (by decide)⟩

/-- `natDigsAux` does not depend on the budget once it is sufficient. -/
theorem natDigsAux_fuel_irrel (n : Nat) :
    ∀ f1 f2, n < f1 → n < f2 → natDigsAux f1 n = natDigsAux f2 n := by
  induction n using Nat.strong_induction_on with
  | _ n ih =>
    intro f1 f2 h1 h2
    match f1, f2 with
    | g1 + 1, g2 + 1 =>
      simp only [natDigsAux]
      by_cases hlt : n < 10
      · simp [hlt]
      · simp only [hlt, if_false]
        rw [ih (n / 10) (by omega) g1 g2 (by omega) (by omega)]

/-- The recursive unfolding of `natDigs`. -/
theorem natDigs_eq (n : Nat) :
    natDigs n = if n < 10 then [digitChar n] else natDigs (n / 10) ++ [digitChar (n % 10)] := by
  by_cases h : n < 10
  · simp [natDigs, natDigsAux, h]
  · have e1 : natDigs n = natDigsAux n (n / 10) ++ [digitChar (n % 10)] := by
      show natDigsAux (n + 1) n = _
      simp only [natDigsAux]
      simp [h]
    rw [e1, if_neg h, natDigsAux_fuel_irrel (n / 10) n (n / 10 + 1) (by omega) (by omega)]
    rfl

/-- Decimal representations are never empty. -/
theorem natDigs_ne_nil (n : Nat) : natDigs n ≠ [] := by
  rw [natDigs_eq]
  split <;> simp

/-- Every character of a decimal representation is a digit. -/
theorem natDigs_digits (n : Nat) : ∀ c ∈ natDigs n, isDigitC c = true := by
  induction n using Nat.strong_induction_on with
  | _ n ih =>
    rw [natDigs_eq]
    by_cases h : n < 10
    · simp only [h, if_true, List.mem_singleton]
      intro c hc
      subst hc
      exact isDigitC_digitChar n h
    · simp only [h, if_false]
      intro c hc
      rcases List.mem_append.mp hc with hc2 | hc2
      · exact ih (n / 10) (by omega) c hc2
      · simp only [List.mem_singleton] at hc2
        subst hc2
        exact isDigitC_digitChar (n % 10) (by omega)

/-- `parseNatAux` stops at a non-digit. -/
theorem parseNatAux_stop (acc : Nat) (rest : List Char) (h : digitHeadF rest = false) :
    parseNatAux acc rest = (acc, rest) := by
  cases rest with
  | nil => rfl
  | cons c r =>
    simp only [digitHeadF] at h
    simp [parseNatAux, h]

/-- `parseNatAux` folds over a block of digits. -/
theorem parseNatAux_digits (xs : List Char) (h : ∀ c ∈ xs, isDigitC c = true)
    (acc : Nat) (rest : List Char) :
    parseNatAux acc (xs ++ rest)
      = parseNatAux (xs.foldl (fun a c => 10 * a + (c.toNat - 48)) acc) rest := by
  induction xs generalizing acc with
  | nil => rfl
  | cons c cs ih =>
    have hc : isDigitC c = true := h c (by simp)
    simp only [List.cons_append, parseNatAux, hc, if_true, List.foldl_cons]
    exact ih (fun x hx => h x (by simp [hx])) _

/-- Folding the digit accumulator over a decimal representation recovers
the number. -/
theorem foldl_natDigs (n : Nat) :
    ∀ acc, (natDigs n).foldl (fun a c => 10 * a + (c.toNat - 48)) acc
      = acc * 10 ^ (natDigs n).length + n := by
  induction n using Nat.strong_induction_on with
  | _ n ih =>
    intro acc
    rw [natDigs_eq]
    by_cases h : n < 10
    · simp only [h, if_true, List.foldl_cons, List.foldl_nil, List.length_singleton]
      rw [toNat_digitChar n h]
      omega
    · simp only [h, if_false, List.foldl_append, List.foldl_cons, List.foldl_nil,
        List.length_append, List.length_singleton]
      rw [ih (n / 10) (by omega) acc, toNat_digitChar (n % 10) (by omega), pow_succ]
      have hten : (48 : Nat) + n % 10 - 48 = n % 10 := by omega
      rw [hten]
      have : acc * (10 ^ (natDigs (n / 10)).length * 10)
          = (acc * 10 ^ (natDigs (n / 10)).length) * 10 := by ring
      rw [this]
      omega

/-- Parsing the decimal representation of `n`, first digit pre-consumed
into the accumulator as `parseVal` does, recovers `n` and the suffix. -/
theorem parseNat_natDigs (n : Nat) (c : Char) (cs rest : List Char)
    (hcons : natDigs n = c :: cs) (hr : digitHeadF rest = false) :
    parseNatAux (c.toNat - 48) (cs ++ rest) = (n, rest) := by
  have hdig : ∀ x ∈ cs, isDigitC x = true := by
    intro x hx
    exact natDigs_digits n x (by rw [hcons]; simp [hx])
  rw [parseNatAux_digits cs hdig _ rest]
  have hfold : (natDigs n).foldl (fun a c => 10 * a + (c.toNat - 48)) 0
      = cs.foldl (fun a c => 10 * a + (c.toNat - 48)) (c.toNat - 48) := by
    rw [hcons, List.foldl_cons]
    norm_num
  have := foldl_natDigs n 0
  rw [hfold] at this
  rw [this]
  simp only [Nat.zero_mul, Nat.zero_add]
  exact parseNatAux_stop n rest hr

/-- `skipWs` is the identity on input that does not start with
whitespace. -/
theorem skipWs_cons {c : Char} (l : List Char) (h : isWsC c = false) :
    skipWs (c :: l) = c :: l := by
  simp [skipWs, h]

/-! ## String-body round trip -/

/-- One budget step of the string-body round trip: each escape produced by
`escChar` is decoded back to its character. -/
theorem rtStr_step (f : Nat) (ih : RTStr f) : RTStr (f + 1) := by
  intro s rest hlen
  cases s with
  | nil =>
    show parseStrBody (f + 1) ('"' :: rest) = some ([], rest)
    simp [parseStrBody]
  | cons c s2 =>
    have hrec : parseStrBody f (escStr s2 ++ ('"' :: rest)) = some (s2, rest) := by
      apply ih
      simp only [List.length_cons] at hlen
      omega
    show parseStrBody (f + 1) ((escChar c ++ escStr s2) ++ ('"' :: rest)) = some (c :: s2, rest)
    rw [List.append_assoc]
    by_cases h1 : c = '"'
    · subst h1
      simp +decide only [escChar, if_true, if_false]
      simp +decide only [parseStrBody, escUnmap, if_true, if_false, List.cons_append, List.nil_append]
      rw [hrec]
      rfl
    · by_cases h2 : c = '\\'
      · subst h2
        simp +decide only [escChar, if_true, if_false]
        simp +decide only [parseStrBody, escUnmap, if_true, if_false, List.cons_append, List.nil_append]
        rw [hrec]
        rfl
      · by_cases h3 : c.toNat = 10
        · simp only [escChar, if_neg h1, if_neg h2, if_pos h3]
          simp +decide only [parseStrBody, escUnmap, if_true, if_false, List.cons_append, List.nil_append]
          rw [hrec, charEq_of_toNat ((toNat_ofNat (by omega)).trans h3.symm)]
          rfl
        · by_cases h4 : c.toNat = 9
          · simp only [escChar, if_neg h1, if_neg h2, if_neg h3, if_pos h4]
            simp +decide only [parseStrBody, escUnmap, if_true, if_false, List.cons_append, List.nil_append]
            rw [hrec, charEq_of_toNat ((toNat_ofNat (by omega)).trans h4.symm)]
            rfl
          · by_cases h5 : c.toNat = 13
            · simp only [escChar, if_neg h1, if_neg h2, if_neg h3, if_neg h4, if_pos h5]
              simp +decide only [parseStrBody, escUnmap, if_true, if_false, List.cons_append, List.nil_append]
              rw [hrec, charEq_of_toNat ((toNat_ofNat (by omega)).trans h5.symm)]
              rfl
            · by_cases h6 : c.toNat = 8
              · simp only [escChar, if_neg h1, if_neg h2, if_neg h3, if_neg h4, if_neg h5,
                  if_pos h6]
                simp +decide only [parseStrBody, escUnmap, if_true, if_false, List.cons_append, List.nil_append]
                rw [hrec, charEq_of_toNat ((toNat_ofNat (by omega)).trans h6.symm)]
                rfl
              · by_cases h7 : c.toNat = 12
                · simp only [escChar, if_neg h1, if_neg h2, if_neg h3, if_neg h4, if_neg h5,
                    if_neg h6, if_pos h7]
                  simp +decide only [parseStrBody, escUnmap, if_true, if_false, List.cons_append, List.nil_append]
                  rw [hrec, charEq_of_toNat ((toNat_ofNat (by omega)).trans h7.symm)]
                  rfl
                · by_cases h8 : c.toNat < 32
                  · simp only [escChar, if_neg h1, if_neg h2, if_neg h3, if_neg h4, if_neg h5,
                      if_neg h6, if_neg h7, if_pos h8]
                    have e1 : hexVal '0' = some 0 := by decide
                    have e2 := hexVal_hexDig (c.toNat / 16) (by omega)
                    have e3 := hexVal_hexDig (c.toNat % 16) (by omega)
                    simp +decide only [parseStrBody, e1, e2, e3, if_true, if_false, List.cons_append, List.nil_append]
                    have hcode : ((0 * 16 + 0) * 16 + c.toNat / 16) * 16 + c.toNat % 16
                        = c.toNat := by omega
                    rw [hcode, if_pos (Or.inl (by omega : c.toNat < 55296) : Nat.isValidChar c.toNat)]
                    rw [hrec, charEq_of_toNat (toNat_ofNat (by omega : c.toNat < 55296))]
                    rfl
                  · simp only [escChar, if_neg h1, if_neg h2, if_neg h3, if_neg h4, if_neg h5,
                      if_neg h6, if_neg h7, if_neg h8, List.cons_append, List.nil_append]
                    simp only [parseStrBody, if_neg h1, if_neg h2, if_neg (by omega : ¬c.toNat < 32)]
                    rw [hrec]
                    rfl

/-! ## Value, array and object round trips -/

/-- `parseVal` on input starting with a digit parses a number. -/
theorem parseVal_digit (f : Nat) (c : Char) (hc : isDigitC c = true) (r : List Char) :
    parseVal (f + 1) (c :: r)
      = some (.num ((parseNatAux (c.toNat - 48) r).1 : Int), (parseNatAux (c.toNat - 48) r).2) := by
  obtain ⟨⟨p1, p2, p3⟩, ⟨p4, p5⟩, ⟨p6, p7⟩, p8, _, _⟩ := isDigitC_props hc
  simp only [parseVal]
  rw [skipWs_cons _ p8]
  dsimp only
  rw [if_neg p1, if_neg p2, if_neg p3, if_neg p4, if_neg p5, if_neg p6, if_neg p7, if_pos hc]

/-- Every serialized JSON value starts with a character that is neither
whitespace nor a closing bracket. -/
theorem strJ_head (j : Json) :
    ∃ c t, strJ j = c :: t ∧ (isWsC c = false ∧ c ≠ ']') ∧ c ≠ '}' := by
  cases j with
  | null => exact ⟨'n', ['u', 'l', 'l'], rfl, ⟨by decide, by decide⟩, by decide⟩
  | bool b =>
    cases b with
    | true => exact ⟨'t', ['r', 'u', 'e'], rfl, ⟨by decide, by decide⟩, by decide⟩
    | false => exact ⟨'f', ['a', 'l', 's', 'e'], rfl, ⟨by decide, by decide⟩, by decide⟩
  | num n =>
    by_cases hneg : n < 0
    · refine ⟨'-', natDigs n.natAbs, ?_, ⟨by decide, by decide⟩, by decide⟩
      simp [strJ, strInt, hneg]
    · cases hnd : natDigs n.natAbs with
      | nil => exact absurd hnd (natDigs_ne_nil _)
      | cons c cs =>
        obtain ⟨_, _, _, p8, p9, p10⟩ :=
          isDigitC_props (natDigs_digits n.natAbs c (by rw [hnd]; simp))
        refine ⟨c, cs, ?_, ⟨p8, p9⟩, p10⟩
        simp [strJ, strInt, hneg, hnd]
  | str s => exact ⟨'"', escStr s ++ ['"'], rfl, ⟨by decide, by decide⟩, by decide⟩
  | arr xs =>
    cases xs with
    | nil => exact ⟨'[', [']'], rfl, ⟨by decide, by decide⟩, by decide⟩
    | cons v tl =>
      exact ⟨'[', strItems (.cons v tl) ++ [']'], rfl, ⟨by decide, by decide⟩, by decide⟩
  | obj kvs =>
    cases kvs with
    | nil => exact ⟨'{', ['}'], rfl, ⟨by decide, by decide⟩, by decide⟩
    | cons k v tl =>
      exact ⟨'{', strMembers (.cons k v tl) ++ ['}'], rfl, ⟨by decide, by decide⟩, by decide⟩

/-- One budget step of the value round trip. -/
theorem rtVal_step (f : Nat) (_ihV : RTVal f) (ihI : RTItems f) (ihM : RTMem f)
    (ihS : RTStr f) : RTVal (f + 1) := by
  intro j rest hsz hrest
  cases j with
  | null =>
    show parseVal (f + 1) (['n', 'u', 'l', 'l'] ++ rest) = some (.null, rest)
    simp +decide only [parseVal, skipWs, List.append_eq, List.cons_append, List.nil_append, if_true, if_false]
  | bool b =>
    cases b with
    | true =>
      show parseVal (f + 1) (['t', 'r', 'u', 'e'] ++ rest) = some (.bool true, rest)
      simp +decide only [parseVal, skipWs, List.append_eq, List.cons_append, List.nil_append, if_true, if_false]
    | false =>
      show parseVal (f + 1) (['f', 'a', 'l', 's', 'e'] ++ rest) = some (.bool false, rest)
      simp +decide only [parseVal, skipWs, List.append_eq, List.cons_append, List.nil_append, if_true, if_false]
  | num n =>
    by_cases hneg : n < 0
    · have hm : strJ (.num n) = '-' :: natDigs n.natAbs := by simp [strJ, strInt, hneg]
      cases hnd : natDigs n.natAbs with
      | nil => exact absurd hnd (natDigs_ne_nil _)
      | cons c cs =>
        have hc := natDigs_digits n.natAbs c (by rw [hnd]; simp)
        rw [hm, hnd]
        show parseVal (f + 1) ('-' :: ((c :: cs) ++ rest)) = some (.num n, rest)
        simp +decide only [parseVal, skipWs, List.cons_append, if_true, if_false]
        rw [if_pos hc, parseNat_natDigs n.natAbs c cs rest hnd hrest]
        have : (↑(n.natAbs) : Int) = -n := by omega
        rw [this]
        simp
    · have hm : strJ (.num n) = natDigs n.natAbs := by simp [strJ, strInt, hneg]
      cases hnd : natDigs n.natAbs with
      | nil => exact absurd hnd (natDigs_ne_nil _)
      | cons c cs =>
        have hc := natDigs_digits n.natAbs c (by rw [hnd]; simp)
        rw [hm, hnd, List.cons_append, parseVal_digit f c hc,
          parseNat_natDigs n.natAbs c cs rest hnd hrest]
        have : (↑(n.natAbs) : Int) = n := by omega
        rw [this]
  | str s =>
    have hs : s.length + 1 ≤ f := by simp [sizeJ] at hsz; omega
    show parseVal (f + 1) (('"' :: escStr s ++ ['"']) ++ rest) = some (.str s, rest)
    have harr : ('"' :: escStr s ++ ['"']) ++ rest = '"' :: (escStr s ++ ('"' :: rest)) := by
      simp
    rw [harr]
    simp +decide only [parseVal, skipWs, if_true, if_false]
    rw [ihS s rest hs]
    rfl
  | arr xs =>
    cases xs with
    | nil =>
      show parseVal (f + 1) (['[', ']'] ++ rest) = some (.arr .nil, rest)
      simp +decide only [parseVal, skipWs, List.append_eq, List.cons_append, List.nil_append, if_true, if_false]
    | cons v tl =>
      have hsa : sizeA (JsonArr.cons v tl) ≤ f := by simp [sizeJ] at hsz; omega
      obtain ⟨c, t, hct, ⟨hws, hbr⟩, _⟩ := strJ_head v
      have hhead : strItems (.cons v tl) ++ (']' :: rest)
          = c :: (t ++ (strItemsTail tl ++ (']' :: rest))) := by
        cases tl <;> simp [strItems, strItemsTail, hct]
      show parseVal (f + 1) (('[' :: strItems (.cons v tl) ++ [']']) ++ rest)
          = some (.arr (.cons v tl), rest)
      have harr : ('[' :: strItems (.cons v tl) ++ [']']) ++ rest
          = '[' :: (strItems (.cons v tl) ++ (']' :: rest)) := by simp
      rw [harr]
      simp +decide only [parseVal, skipWs, List.append_eq, if_true, if_false]
      rw [show skipWs (strItems (.cons v tl) ++ (']' :: rest))
          = strItems (.cons v tl) ++ (']' :: rest) by rw [hhead]; exact skipWs_cons _ hws]
      rw [hhead]
      dsimp only
      rw [if_neg hbr, ← hhead, ihI (.cons v tl) rest (by simp) hsa]
      rfl
  | obj kvs =>
    cases kvs with
    | nil =>
      show parseVal (f + 1) (['{', '}'] ++ rest) = some (.obj .nil, rest)
      simp +decide only [parseVal, skipWs, List.append_eq, List.cons_append, List.nil_append, if_true, if_false]
    | cons k v tl =>
      have hso : sizeO (JsonObj.cons k v tl) ≤ f := by simp [sizeJ] at hsz; omega
      have hhead : strMembers (.cons k v tl) ++ ('}' :: rest)
          = '"' :: (escStr k ++ ('"' :: (':' :: (strJ v ++ (strMembersTail tl ++ ('}' :: rest)))))) := by
        cases tl <;> simp [strMembers, strMembersTail, strString]
      show parseVal (f + 1) (('{' :: strMembers (.cons k v tl) ++ ['}']) ++ rest)
          = some (.obj (.cons k v tl), rest)
      have harr : ('{' :: strMembers (.cons k v tl) ++ ['}']) ++ rest
          = '{' :: (strMembers (.cons k v tl) ++ ('}' :: rest)) := by simp
      rw [harr]
      simp +decide only [parseVal, skipWs, List.append_eq, if_true, if_false]
      rw [show skipWs (strMembers (.cons k v tl) ++ ('}' :: rest))
          = strMembers (.cons k v tl) ++ ('}' :: rest) by rw [hhead]; exact skipWs_cons _ (by decide)]
      rw [hhead]
      dsimp only
      rw [if_neg (by decide : ¬('"' : Char) = '}'), ← hhead,
        ihM (.cons k v tl) rest (by simp) hso]
      rfl

/-- One budget step of the array-elements round trip. -/
theorem rtItems_step (f : Nat) (ihV : RTVal f) (ihI : RTItems f) : RTItems (f + 1) := by
  intro xs rest hne hsz
  cases xs with
  | nil => exact absurd rfl hne
  | cons v tl =>
    have hsv : sizeJ v ≤ f := by simp [sizeA] at hsz; omega
    cases tl with
    | nil =>
      show parseItems (f + 1) (strJ v ++ (']' :: rest)) = some (.cons v .nil, rest)
      simp only [parseItems]
      rw [ihV v (']' :: rest) hsv (by simp +decide [digitHeadF])]
      dsimp only
      rw [skipWs_cons _ (by decide)]
      simp +decide only [if_true, if_false]
    | cons w tl2 =>
      have hst : sizeA (JsonArr.cons w tl2) ≤ f := by simp [sizeA] at hsz ⊢; omega
      show parseItems (f + 1)
          ((strJ v ++ ',' :: strItems (.cons w tl2)) ++ (']' :: rest))
          = some (.cons v (.cons w tl2), rest)
      have harr : (strJ v ++ ',' :: strItems (.cons w tl2)) ++ (']' :: rest)
          = strJ v ++ (',' :: (strItems (.cons w tl2) ++ (']' :: rest))) := by simp
      rw [harr]
      simp only [parseItems]
      rw [ihV v _ hsv (by simp +decide [digitHeadF])]
      dsimp only
      rw [skipWs_cons _ (by decide)]
      simp +decide only [if_true, if_false]
      rw [ihI (.cons w tl2) rest (by simp) hst]

/-- One budget step of the object-members round trip. -/
theorem rtMem_step (f : Nat) (ihV : RTVal f) (ihM : RTMem f) (ihS : RTStr f) :
    RTMem (f + 1) := by
  intro kvs rest hne hsz
  cases kvs with
  | nil => exact absurd rfl hne
  | cons k v tl =>
    have hsk : k.length + 1 ≤ f := by simp [sizeO] at hsz; omega
    have hsv : sizeJ v ≤ f := by simp [sizeO] at hsz; omega
    cases tl with
    | nil =>
      show parseMembers (f + 1)
          ((strString k ++ ':' :: strJ v) ++ ('}' :: rest)) = some (.cons k v .nil, rest)
      have harr : (strString k ++ ':' :: strJ v) ++ ('}' :: rest)
          = '"' :: (escStr k ++ ('"' :: (':' :: (strJ v ++ ('}' :: rest))))) := by
        simp [strString]
      rw [harr]
      simp only [parseMembers]
      rw [skipWs_cons _ (by decide)]
      dsimp only
      simp +decide only [if_true, if_false]
      rw [ihS k _ hsk]
      dsimp only
      rw [skipWs_cons _ (by decide)]
      dsimp only
      simp +decide only [if_true, if_false]
      rw [ihV v _ hsv (by simp +decide [digitHeadF])]
      dsimp only
      rw [skipWs_cons _ (by decide)]
      simp +decide only [if_true, if_false]
    | cons k2 v2 tl2 =>
      have hst : sizeO (JsonObj.cons k2 v2 tl2) ≤ f := by simp [sizeO] at hsz ⊢; omega
      show parseMembers (f + 1)
          ((strString k ++ ':' :: strJ v ++ ',' :: strMembers (.cons k2 v2 tl2))
            ++ ('}' :: rest))
          = some (.cons k v (.cons k2 v2 tl2), rest)
      have harr : (strString k ++ ':' :: strJ v ++ ',' :: strMembers (.cons k2 v2 tl2))
            ++ ('}' :: rest)
          = '"' :: (escStr k ++ ('"' :: (':' :: (strJ v
              ++ (',' :: (strMembers (.cons k2 v2 tl2) ++ ('}' :: rest))))))) := by
        simp [strString]
      rw [harr]
      simp only [parseMembers]
      rw [skipWs_cons _ (by decide)]
      dsimp only
      simp +decide only [if_true, if_false]
      rw [ihS k _ hsk]
      dsimp only
      rw [skipWs_cons _ (by decide)]
      dsimp only
      simp +decide only [if_true, if_false]
      rw [ihV v _ hsv (by simp +decide [digitHeadF])]
      dsimp only
      rw [skipWs_cons _ (by decide)]
      simp +decide only [if_true, if_false]
      rw [ihM (.cons k2 v2 tl2) rest (by simp) hst]

/-- The round-trip properties hold at every budget. -/
theorem rt_all (fuel : Nat) : RTVal fuel ∧ RTItems fuel ∧ RTMem fuel ∧ RTStr fuel := by
  induction fuel with
  | zero =>
    refine ⟨?_, ?_, ?_, ?_⟩
    · intro j rest hsz _
      have hpos : 1 ≤ sizeJ j := by cases j <;> simp [sizeJ]
      omega
    · intro xs rest hne hsz
      cases xs with
      | nil => exact absurd rfl hne
      | cons v tl =>
        simp [sizeA] at hsz
    · intro kvs rest hne hsz
      cases kvs with
      | nil => exact absurd rfl hne
      | cons k v tl =>
        simp [sizeO] at hsz
    · intro s rest hlen
      omega
  | succ f ih =>
    exact ⟨rtVal_step f ih.1 ih.2.1 ih.2.2.1 ih.2.2.2,
      rtItems_step f ih.1 ih.2.1,
      rtMem_step f ih.1 ih.2.2.1 ih.2.2.2,
      rtStr_step f ih.2.2.2⟩

/-! ## The serialized form is long enough to pay for its own parse -/

/-- Escaping a character yields at least one character. -/
theorem escChar_len (c : Char) : 1 ≤ (escChar c).length := by
  unfold escChar
  split_ifs <;> simp

/-- Escaping never shortens a string. -/
theorem escStr_len (s : List Char) : s.length ≤ (escStr s).length := by
  induction s with
  | nil => simp [escStr]
  | cons c s ih =>
    have := escChar_len c
    simp only [escStr, List.length_append, List.length_cons]
    omega

/-- Integer serializations are nonempty. -/
theorem strInt_len (n : Int) : 1 ≤ (strInt n).length := by
  unfold strInt
  split_ifs
  · simp
  · exact List.length_pos.mpr (natDigs_ne_nil _)

mutual
/-- The parse budget of a value is bounded by its serialized length. -/
theorem sizeJ_le_len (j : Json) : sizeJ j ≤ (strJ j).length := by
  cases j with
  | null => decide
  | bool b => cases b <;> decide
  | num n =>
    have := strInt_len n
    simp only [sizeJ, strJ]
    omega
  | str s =>
    have := escStr_len s
    simp only [sizeJ, strJ, strString, List.length_cons, List.length_append,
      List.length_singleton]
    omega
  | arr xs =>
    cases xs with
    | nil => decide
    | cons v tl =>
      have h := sizeA_le_len (.cons v tl)
      simp only [sizeJ, strJ, List.length_cons, List.length_append, List.length_singleton]
      omega
  | obj kvs =>
    cases kvs with
    | nil => decide
    | cons k v tl =>
      have h := sizeO_le_len (.cons k v tl)
      simp only [sizeJ, strJ, List.length_cons, List.length_append, List.length_singleton]
      omega
/-- The parse budget of array elements is bounded by their serialized
length plus one. -/
theorem sizeA_le_len (xs : JsonArr) : sizeA xs ≤ (strItems xs).length + 1 := by
  cases xs with
  | nil => decide
  | cons v tl =>
    have hv := sizeJ_le_len v
    cases tl with
    | nil =>
      simp only [sizeA, strItems]
      omega
    | cons w tl2 =>
      have ht := sizeA_le_len (.cons w tl2)
      simp only [sizeA] at ht ⊢
      simp only [strItems, List.length_append, List.length_cons]
      omega
/-- The parse budget of object members is bounded by their serialized
length plus one. -/
theorem sizeO_le_len (kvs : JsonObj) : sizeO kvs ≤ (strMembers kvs).length + 1 := by
  cases kvs with
  | nil => decide
  | cons k v tl =>
    have hv := sizeJ_le_len v
    have hk := escStr_len k
    cases tl with
    | nil =>
      simp only [sizeO, strMembers, strString, List.length_append, List.length_cons,
        List.length_singleton]
      omega
    | cons k2 v2 tl2 =>
      have ht := sizeO_le_len (.cons k2 v2 tl2)
      simp only [sizeO] at ht ⊢
      simp only [strMembers, strString, List.length_append, List.length_cons,
        List.length_singleton]
      omega
end

/-- `JSON.parse` inverts `JSON.stringify` on every JSON value. -/
theorem jparse_jstringify (j : Json) : jparse (jstringify j) = some j := by
  have h := (rt_all ((strJ j).length + 1)).1 j []
    (le_trans (sizeJ_le_len j) (by omega)) (by decide)
  rw [List.append_nil] at h
  unfold jparse jstringify
  have hdata : (String.mk (strJ j)).data = strJ j := rfl
  rw [hdata, h]
  simp [skipWs]

/-! ## Claim C3: export/import round trip -/

/-- C3: importing the string produced by `exportBusinessData` succeeds and
leaves the menuItems, categories, settings and discountMilestones
collections exactly as they were. -/
theorem export_import_roundtrip (s : BizState) (eid : String) (ets : Int) :
    (importBusinessData (exportBusinessData s) eid ets s).2 = true ∧
    (importBusinessData (exportBusinessData s) eid ets s).1.menuItems = s.menuItems ∧
    (importBusinessData (exportBusinessData s) eid ets s).1.categories = s.categories ∧
    (importBusinessData (exportBusinessData s) eid ets s).1.settings = s.settings ∧
    (importBusinessData (exportBusinessData s) eid ets s).1.discountMilestones
      = s.discountMilestones := by
  have hp : jparse (exportBusinessData s)
      = some (Json.obj (.cons "menuItems".data s.menuItems
          (.cons "categories".data s.categories
            (.cons "settings".data s.settings
              (.cons "discountMilestones".data s.discountMilestones .nil))))) :=
    jparse_jstringify _
  simp only [importBusinessData, hp]
  simp +decide only [Json.isNull, getField, objGet, if_true, if_false, Bool.false_eq_true]
  split_ifs <;> simp

/-! ## Claim C1: double toggle -/

/-- C1 counterexample: with settings packing charge 10 and an order whose
stored packing charge is 5 while not takeaway, toggling takeaway twice
does not restore the order's packingCharge field (it becomes 0). -/
theorem toggle_twice_cex :
    (toggleOrderTakeaway "o1" (toggleOrderTakeaway "o1" stA)).orders.map Order.packingCharge
      ≠ stA.orders.map Order.packingCharge := by decide

/-- C1 (amended): applying `toggleOrderTakeaway` twice to the same id
restores every order's isTakeaway and total exactly (and every other field
but the packing charge), while the matched order's packingCharge is set to
the canonical value for its flag — the current settings' packing charge if
takeaway, else 0 — so it is restored exactly iff it already was canonical. -/
theorem toggle_twice_spec (s : State) (oid : String) :
    (toggleOrderTakeaway oid (toggleOrderTakeaway oid s)).orders =
      s.orders.map (fun o =>
        if o.id = oid then
          { o with packingCharge := if o.isTakeaway then s.settings.packingCharge else 0 }
        else o) ∧
    (toggleOrderTakeaway oid (toggleOrderTakeaway oid s)).activityLog = s.activityLog ∧
    (toggleOrderTakeaway oid (toggleOrderTakeaway oid s)).settings = s.settings := by
  refine ⟨?_, rfl, rfl⟩
  simp only [toggleOrderTakeaway, List.map_map]
  apply List.map_congr_left
  intro o _
  by_cases h : o.id = oid
  · obtain ⟨oi, oit, ost, ots, ota, opc, otot⟩ := o
    simp only at h
    cases ota <;> simp [h, Function.comp]
  · simp [h, Function.comp]

/-! ## Claim C2: single toggle -/

/-- C2 counterexample: turning takeaway off on an order carrying a stored
packing charge of 7 while the settings' charge is 10 lowers the total by
10 (107 to 97), not by the 7 that was on the order. -/
theorem toggle_delta_cex :
    (toggleOrderTakeaway "o1" stB).orders.map Order.total = [97] ∧
    ordB.total - ordB.packingCharge ≠ (97 : Int) := by decide

/-- C2 (amended): `toggleOrderTakeaway` flips the matched order's flag,
sets its packingCharge to the current settings' charge when the flag
becomes true and to 0 when it becomes false, and shifts the total by plus
or minus the *current settings'* packing charge (not by the order's stored
packing charge); all other fields and orders, and the activity log, are
untouched. -/
theorem toggle_spec (s : State) (oid : String) :
    (toggleOrderTakeaway oid s).activityLog = s.activityLog ∧
    (toggleOrderTakeaway oid s).orders.length = s.orders.length ∧
    ∀ i, i < s.orders.length →
      (((s.orders.getD i dOrd).id ≠ oid →
          (toggleOrderTakeaway oid s).orders.getD i dOrd = s.orders.getD i dOrd) ∧
       ((s.orders.getD i dOrd).id = oid →
          ((toggleOrderTakeaway oid s).orders.getD i dOrd).isTakeaway
              = !(s.orders.getD i dOrd).isTakeaway ∧
          ((toggleOrderTakeaway oid s).orders.getD i dOrd).packingCharge
              = (if (s.orders.getD i dOrd).isTakeaway then 0 else s.settings.packingCharge) ∧
          ((toggleOrderTakeaway oid s).orders.getD i dOrd).total
              = (s.orders.getD i dOrd).total
                + (if (s.orders.getD i dOrd).isTakeaway
                   then -s.settings.packingCharge else s.settings.packingCharge) ∧
          ((toggleOrderTakeaway oid s).orders.getD i dOrd).id = (s.orders.getD i dOrd).id ∧
          ((toggleOrderTakeaway oid s).orders.getD i dOrd).status
              = (s.orders.getD i dOrd).status ∧
          ((toggleOrderTakeaway oid s).orders.getD i dOrd).timestamp
              = (s.orders.getD i dOrd).timestamp ∧
          ((toggleOrderTakeaway oid s).orders.getD i dOrd).items
              = (s.orders.getD i dOrd).items)) := by
  refine ⟨rfl, by simp [toggleOrderTakeaway], ?_⟩
  intro i hi
  have hmap : (toggleOrderTakeaway oid s).orders.getD i dOrd =
      (if (s.orders.getD i dOrd).id = oid then
        { s.orders.getD i dOrd with
          isTakeaway := !(s.orders.getD i dOrd).isTakeaway,
          packingCharge :=
            if !(s.orders.getD i dOrd).isTakeaway then s.settings.packingCharge else 0,
          total := (s.orders.getD i dOrd).total
            + (if !(s.orders.getD i dOrd).isTakeaway then s.settings.packingCharge
               else -s.settings.packingCharge) }
      else s.orders.getD i dOrd) := by
    simp only [toggleOrderTakeaway]
    exact getD_map _ s.orders i dOrd hi
  rw [hmap]
  generalize s.orders.getD i dOrd = o
  constructor
  · intro hne
    rw [if_neg hne]
  · intro heq
    rw [if_pos heq]
    obtain ⟨oi, oit, ost, ots, ota, opc, otot⟩ := o
    cases ota <;> simp

/-- C2 witness: the amended toggle contract evaluated on the concrete
state `stB` at index 0. -/
theorem toggle_spec_witness :
    (0 : Nat) < stB.orders.length ∧ (stB.orders.getD 0 dOrd).id = "o1" ∧
    ((toggleOrderTakeaway "o1" stB).orders.getD 0 dOrd).total
      = (stB.orders.getD 0 dOrd).total
        + (if (stB.orders.getD 0 dOrd).isTakeaway
           then -stB.settings.packingCharge else stB.settings.packingCharge) :=
  ⟨by decide, by decide,
    (((toggle_spec stB "o1").2.2 0 (by decide)).2 (by decide)).2.2.1⟩

/-! ## Claim C6: milestone sorting -/

/-- C6: after `updateDiscountMilestones`, the stored milestone list is a
permutation of the input, sorted ascending by threshold, whatever the
input order. -/
theorem updateDiscountMilestones_sorted (ms : List Milestone) (eid : String) (ets : Int)
    (s : State) :
    ((updateDiscountMilestones ms eid ets s).discountMilestones).Perm ms ∧
    List.Sorted mileLE (updateDiscountMilestones ms eid ets s).discountMilestones := by
  constructor
  · exact List.perm_insertionSort mileLE ms
  · exact List.sorted_insertionSort mileLE ms

/-! ## Claim C7: activity log bound -/

/-- `logActivity` always leaves at most 100 entries. -/
theorem logActivity_log_le (e : ActivityEntry) (s : State) :
    (logActivity e s).activityLog.length ≤ 100 := by
  simp only [logActivity, List.length_take]
  omega

/-- Any single operation keeps the activity log within 100 entries. -/
theorem applyOp_log_le (s : State) (op : Op) (h : s.activityLog.length ≤ 100) :
    (applyOp s op).activityLog.length ≤ 100 := by
  cases op with
  | login pw =>
    simp only [applyOp, login]
    split <;> exact h
  | logout => exact h
  | addMenuItem it eid ets => exact logActivity_log_le _ _
  | updateMenuItem it eid ets => exact logActivity_log_le _ _
  | deleteMenuItem i eid ets =>
    simp only [applyOp, deleteMenuItem]
    cases s.menuItems.find? (fun x => x.id == i) with
    | none => exact h
    | some it => exact logActivity_log_le _ _
  | addCategory n eid ets =>
    simp only [applyOp, addCategory]
    split
    · exact h
    · split
      · exact h
      · exact logActivity_log_le _ _
  | renameCategory o n eid ets =>
    simp only [applyOp, renameCategory]
    split
    · exact h
    · exact logActivity_log_le _ _
  | removeCategory n eid ets => exact logActivity_log_le _ _
  | updateDiscountMilestones ms eid ets => exact logActivity_log_le _ _
  | updateSettings ns eid ets => exact logActivity_log_le _ _
  | placeOrder d oid ts => exact h
  | updateOrderStatus oid st => exact h
  | toggleOrderTakeaway oid => exact h
  | clearHistory eid ets => exact logActivity_log_le _ _

/-- C7: the activity log never exceeds 100 entries across any sequence of
store operations (each logging operation prepends the fresh entry and
truncates to the 100 newest, evicting the oldest), and the same bound
holds through `importBusinessData`. -/
theorem activityLog_bounded (s : State) (ops : List Op)
    (h : s.activityLog.length ≤ 100) :
    (applyOps s ops).activityLog.length ≤ 100 ∧
    (∀ (b : BizState) (str eid : String) (ets : Int), b.activityLog.length ≤ 100 →
      ((importBusinessData str eid ets b).1).activityLog.length ≤ 100) := by
  constructor
  · induction ops generalizing s with
    | nil => exact h
    | cons op ops ih => exact ih _ (applyOp_log_le s op h)
  · intro b str eid ets hb
    unfold importBusinessData
    cases jparse str with
    | none => exact hb
    | some data =>
      by_cases hn : data.isNull = true
      · simp [hn]
        exact hb
      · simp only [Bool.not_eq_true] at hn
        simp [hn, List.length_take]

/-- C7 witness: the bound evaluated on a concrete state and operation
sequence. -/
theorem activityLog_bounded_witness :
    stA.activityLog.length ≤ 100 ∧
    (applyOps stA [Op.clearHistory "e1" 5, Op.removeCategory "X" "e2" 6]).activityLog.length
      ≤ 100 :=
  ⟨by decide, (activityLog_bounded stA [Op.clearHistory "e1" 5, Op.removeCategory "X" "e2" 6]
    (by decide)).1⟩

/-! ## Claim C8: removeCategory cascade -/

/-- C8: `removeCategory` drops the name from the category list, deletes
every menu item of that category (leaving the rest), and logs a
DELETE/CATEGORY entry whether or not anything matched; concretely, removing
"Drinks" from the Drinks/Food fixture leaves only Food and only item B,
and removing a non-existent category still logs. -/
theorem removeCategory_spec (name eid : String) (ets : Int) (s : State) :
    (removeCategory name eid ets s).categories = s.categories.filter (fun c => c != name) ∧
    (removeCategory name eid ets s).menuItems
      = s.menuItems.filter (fun item => item.category != name) ∧
    (removeCategory name eid ets s).activityLog
      = ((mkEntry eid .DELETE .CATEGORY ("Permanently deleted category: " ++ name) ets)
          :: s.activityLog).take 100 ∧
    (removeCategory "Drinks" "e1" 0 stDF).categories = ["Food"] ∧
    (removeCategory "Drinks" "e1" 0 stDF).menuItems = [itemB] ∧
    (removeCategory "Drinks" "e1" 0 stDF).activityLog.length = 1 ∧
    (removeCategory "Bogus" "e1" 0 stDF).activityLog.length = 1 := by
  refine ⟨rfl, rfl, rfl, ?_, ?_, ?_, ?_⟩ <;> decide

/-! ## Claim C9: renameCategory duplicates -/

/-- C9: renaming category "A" to "B" while "B" already exists yields the
category list ["B", "B"] — `renameCategory` performs no duplicate check —
whereas `addCategory` of the duplicate "B" is a silent no-op. -/
theorem renameCategory_duplicate :
    (renameCategory "A" "B" "e1" 0 stAB).categories = ["B", "B"] ∧
    stAB.categories.count "B" = 1 ∧
    ((renameCategory "A" "B" "e1" 0 stAB).categories).count "B" = 2 ∧
    addCategory "B" "e1" 0 stAB = stAB := by decide

/-! ## Claim C5: malformed import -/

/-- C5: on any input that does not parse, `importBusinessData` reports
`false` and returns the state — every collection, orders and activity log
included — exactly as it was. -/
theorem importBusinessData_unparseable (s : BizState) (str eid : String) (ets : Int)
    (h : jparse str = none) :
    importBusinessData str eid ets s = (s, false) := by
  simp [importBusinessData, h]

/-- C5 witness: the malformed-import contract evaluated on a concrete
unparseable input. -/
theorem importBusinessData_unparseable_witness :
    jparse "not json" = none ∧
    importBusinessData "not json" "e1" 0 bizFix = (bizFix, false) :=
  ⟨rfl, importBusinessData_unparseable bizFix "not json" "e1" 0 rfl⟩

/-! ## Claim C10: import is parse-only, with the null exception -/

/-- A non-null JSON value has `isNull = false`. -/
theorem isNull_eq_false {j : Json} (h : j ≠ Json.null) : j.isNull = false := by
  cases j <;> first
    | rfl
    | exact absurd rfl h

/-- C10 counterexample: the input "null" parses as JSON, yet
`importBusinessData` returns false (member access on the parsed `null`
throws inside the `try`), so success is not equivalent to parseability. -/
theorem importBusinessData_null_cex :
    jparse "null" = some Json.null ∧
    importBusinessData "null" "e1" 0 bizFix = (bizFix, false) := ⟨rfl, rfl⟩

/-- C10 (amended): `importBusinessData` returns true iff its input parses
as JSON *to a non-null value* (parsing to `null` fails inside the `try`
and returns false with the state untouched); on success no shape or type
validation occurs — each of the four fields present and truthy replaces
its collection whatever its type, absent or falsy fields leave theirs
unchanged, orders are never touched, and a SYSTEM/SETTINGS entry is
appended even when none of the four fields is present. -/
theorem importBusinessData_behavior (s : BizState) (str eid : String) (ets : Int) :
    ((importBusinessData str eid ets s).2 = true ↔
      ∃ j, jparse str = some j ∧ j ≠ Json.null) ∧
    (∀ j, jparse str = some j → j = Json.null →
      importBusinessData str eid ets s = (s, false)) ∧
    (∀ j, jparse str = some j → j ≠ Json.null →
      (importBusinessData str eid ets s).1.menuItems
          = importedField j "menuItems".data s.menuItems ∧
      (importBusinessData str eid ets s).1.categories
          = importedField j "categories".data s.categories ∧
      (importBusinessData str eid ets s).1.settings
          = importedField j "settings".data s.settings ∧
      (importBusinessData str eid ets s).1.discountMilestones
          = importedField j "discountMilestones".data s.discountMilestones ∧
      (importBusinessData str eid ets s).1.orders = s.orders ∧
      (importBusinessData str eid ets s).1.activityLog
          = ((mkEntry eid .SYSTEM .SETTINGS "Imported external business configuration" ets)
              :: s.activityLog).take 100) := by
  cases hp : jparse str with
  | none =>
    refine ⟨?_, ?_, ?_⟩
    · simp [importBusinessData, hp]
    · intro j hj
      simp [hp] at hj
    · intro j hj
      simp [hp] at hj
  | some j =>
    by_cases hn : j = Json.null
    · subst hn
      refine ⟨?_, ?_, ?_⟩
      · simp [importBusinessData, hp, Json.isNull]
      · intro j2 hj2 _
        simp only [hp, Option.some.injEq] at hj2
        subst hj2
        simp [importBusinessData, hp, Json.isNull]
      · intro j2 hj2 hne
        simp only [hp, Option.some.injEq] at hj2
        exact absurd hj2.symm hne
    · refine ⟨?_, ?_, ?_⟩
      · simp only [importBusinessData, hp, isNull_eq_false hn]
        constructor
        · intro _
          exact ⟨j, rfl, hn⟩
        · intro _
          rfl
      · intro j2 hj2 hnull
        simp only [hp, Option.some.injEq] at hj2
        subst hj2
        exact absurd hnull hn
      · intro j2 hj2 hne
        simp only [hp, Option.some.injEq] at hj2
        subst hj2
        rcases hm1 : getField j "menuItems".data with _ | v1 <;>
          rcases hm2 : getField j "categories".data with _ | v2 <;>
            rcases hm3 : getField j "settings".data with _ | v3 <;>
              rcases hm4 : getField j "discountMilestones".data with _ | v4 <;>
                simp_all [importBusinessData, importedField, isNull_eq_false hne] <;>
                  split_ifs <;> simp_all

/-- C10 witness: the amended import contract evaluated on the concrete
input `"{}"` — an empty JSON object imports successfully, replaces
nothing, and still logs. -/
theorem importBusinessData_behavior_witness :
    (importBusinessData "{}" "e1" 0 bizFix).2 = true ∧
    (importBusinessData "{}" "e1" 0 bizFix).1.menuItems
      = importedField (Json.obj .nil) "menuItems".data bizFix.menuItems ∧
    (importBusinessData "{}" "e1" 0 bizFix).1.activityLog
      = ((mkEntry "e1" .SYSTEM .SETTINGS "Imported external business configuration" 0)
          :: bizFix.activityLog).take 100 :=
  ⟨(importBusinessData_behavior bizFix "{}" "e1" 0).1.mpr ⟨Json.obj .nil, rfl, by decide⟩,
   ((importBusinessData_behavior bizFix "{}" "e1" 0).2.2 (Json.obj .nil) rfl (by decide)).1,
   ((importBusinessData_behavior bizFix "{}" "e1" 0).2.2 (Json.obj .nil) rfl
     (by decide)).2.2.2.2.2⟩

/-! ## Claim C4: how the load effect treats the string "undefined" -/

/-- The recovery path marks itself. -/
theorem recover_recovered (d : LoadDefaults) (s : LoadState) :
    (recover d s).recovered = true := rfl

/-- A stored `"undefined"` under the activity-log key is truthy, fails to
parse, and takes the recovery path. -/
theorem loadLog_undef (d : LoadDefaults) (s : LoadState) :
    (loadLog d (some "undefined") s).recovered = true := rfl

/-- A stored `"undefined"` under the orders key is truthy, fails to parse,
and takes the recovery path. -/
theorem loadOrders_undef (d : LoadDefaults) (tid : String) (sd ss sl : Option String) :
    ∀ s, (loadOrders d tid (some "undefined") sd ss sl s).recovered = true := fun _ => rfl

/-- A stored `"undefined"` under the discounts key is truthy, fails to
parse, and takes the recovery path. -/
theorem loadDiscounts_undef (d : LoadDefaults) (tid : String) (ss sl : Option String) :
    ∀ s, (loadDiscounts d tid (some "undefined") ss sl s).recovered = true := fun _ => rfl

/-- A stored `"undefined"` under the settings key is truthy, fails to
parse, and takes the recovery path. -/
theorem loadSettings_undef (d : LoadDefaults) (tid : String) (sl : Option String) :
    ∀ s, (loadSettings d tid (some "undefined") sl s).recovered = true := fun _ => rfl

/-- Lift a recovery guarantee through the settings step. -/
theorem loadSettings_rec (d : LoadDefaults) (tid : String) (ss sl : Option String)
    (h : ∀ s, (loadLog d sl s).recovered = true) :
    ∀ s, (loadSettings d tid ss sl s).recovered = true := by
  intro s
  unfold loadSettings
  cases ss with
  | none => exact h _
  | some v =>
    dsimp only
    by_cases hv : v = ""
    · rw [if_pos hv]
      exact h _
    · rw [if_neg hv]
      cases jparse v with
      | some jv => exact h _
      | none => rfl

/-- Lift a recovery guarantee through the discounts step. -/
theorem loadDiscounts_rec (d : LoadDefaults) (tid : String) (sd ss sl : Option String)
    (h : ∀ s, (loadSettings d tid ss sl s).recovered = true) :
    ∀ s, (loadDiscounts d tid sd ss sl s).recovered = true := by
  intro s
  unfold loadDiscounts
  cases sd with
  | none => exact h _
  | some v =>
    dsimp only
    by_cases hv : v = ""
    · rw [if_pos hv]
      exact h _
    · rw [if_neg hv]
      cases jparse v with
      | some jv => exact h _
      | none => rfl

/-- Lift a recovery guarantee through the orders step. -/
theorem loadOrders_rec (d : LoadDefaults) (tid : String) (so sd ss sl : Option String)
    (h : ∀ s, (loadDiscounts d tid sd ss sl s).recovered = true) :
    ∀ s, (loadOrders d tid so sd ss sl s).recovered = true := by
  intro s
  unfold loadOrders
  cases so with
  | none => exact h _
  | some v =>
    dsimp only
    by_cases hv : v = ""
    · rw [if_pos hv]
      exact h _
    · rw [if_neg hv]
      cases jparse v with
      | some jv => exact h _
      | none => rfl

/-- Lift a recovery guarantee through the categories step. -/
theorem loadCats_rec (d : LoadDefaults) (tid : String) (sc so sd ss sl : Option String)
    (h : ∀ s, (loadOrders d tid so sd ss sl s).recovered = true) :
    ∀ s, (loadCats d tid sc so sd ss sl s).recovered = true := by
  intro s
  unfold loadCats
  cases sc with
  | none => exact h _
  | some v =>
    dsimp only
    by_cases hv : v = "undefined"
    · rw [if_pos hv]
      exact h _
    · rw [if_neg hv]
      cases jparse v with
      | some jv => exact h _
      | none => rfl

/-- Lift a recovery guarantee through the menu step. -/
theorem loadMenu_rec (d : LoadDefaults) (tid : String) (sm sc so sd ss sl : Option String)
    (h : ∀ s, (loadCats d tid sc so sd ss sl s).recovered = true) :
    ∀ s, (loadMenu d tid sm sc so sd ss sl s).recovered = true := by
  intro s
  unfold loadMenu
  cases sm with
  | none => exact h _
  | some v =>
    dsimp only
    by_cases hv : v = "undefined"
    · rw [if_pos hv]
      exact h _
    · rw [if_neg hv]
      cases jparse v with
      | some jv => exact h _
      | none => rfl

/-- C4 counterexample: a stored `"undefined"` under the orders key is not
treated as absent — the load effect takes the corrupt-data recovery path
(it would not with the key absent). -/
theorem load_undefined_cex :
    (loadEffect ldFix "t" { inpNone with savedOrders := some "undefined" }).recovered = true ∧
    (loadEffect ldFix "t" inpNone).recovered = false := by decide

/-- C4 (amended): a stored value that is absent is treated as absent for
all six keys, but the literal string "undefined" is treated as absent only
for the menu and categories keys; for the orders, discounts, settings and
activity-log keys a stored "undefined" is truthy, so the effect attempts
to parse it, the parse fails, and the corrupt-data recovery path runs. -/
theorem load_undefined_spec (d : LoadDefaults) (tid : String) (inp : LoadInput) :
    loadEffect d tid { inp with savedMenu := some "undefined" }
      = loadEffect d tid { inp with savedMenu := none } ∧
    loadEffect d tid { inp with savedCats := some "undefined" }
      = loadEffect d tid { inp with savedCats := none } ∧
    (loadEffect d tid { inp with savedOrders := some "undefined" }).recovered = true ∧
    (loadEffect d tid { inp with savedDiscounts := some "undefined" }).recovered = true ∧
    (loadEffect d tid { inp with savedSettings := some "undefined" }).recovered = true ∧
    (loadEffect d tid { inp with savedLog := some "undefined" }).recovered = true := by
  refine ⟨rfl, ?_, ?_, ?_, ?_, ?_⟩
  · unfold loadEffect loadMenu
    cases inp.savedMenu with
    | none => rfl
    | some v =>
      dsimp only
      by_cases hv : v = "undefined"
      · rw [if_pos hv, if_pos hv]
        rfl
      · rw [if_neg hv, if_neg hv]
        cases jparse v with
        | some jv => rfl
        | none => rfl
  · exact loadMenu_rec d tid _ _ _ _ _ _
      (loadCats_rec d tid _ _ _ _ _ (loadOrders_undef d tid _ _ _)) _
  · exact loadMenu_rec d tid _ _ _ _ _ _
      (loadCats_rec d tid _ _ _ _ _
        (loadOrders_rec d tid _ _ _ _ (loadDiscounts_undef d tid _ _))) _
  · exact loadMenu_rec d tid _ _ _ _ _ _
      (loadCats_rec d tid _ _ _ _ _
        (loadOrders_rec d tid _ _ _ _
          (loadDiscounts_rec d tid _ _ _ (loadSettings_undef d tid _)))) _
  · exact loadMenu_rec d tid _ _ _ _ _ _
      (loadCats_rec d tid _ _ _ _ _
        (loadOrders_rec d tid _ _ _ _
          (loadDiscounts_rec d tid _ _ _
            (loadSettings_rec d tid _ _ (fun s => loadLog_undef d s))))) _

end Menufy
